import Mathlib

/-!
Verification of the mnemonikey recovery-phrase codec.

The development shallowly embeds the Go sources of the mnemonikey package:
the recovery-phrase codec (EncodeMnemonic / DecodeMnemonic), the Mnemonikey
constructor New with its validation and creation-time quantization, and the
process-wide parameters.  Machine integers and big.Int values are embedded as
Nat / Int; Go time.Time instants are embedded as Int nanoseconds since the
Unix epoch (Go durations are int64 nanosecond counts, and every time
arithmetic operation used by the sources is plain integer arithmetic on that
representation).  Fallible Go functions returning (value, error) pairs are
embedded with Except, and DecodeMnemonic, whose Go signature uses named
result parameters, is embedded as the full result triple it returns.

External collaborators that the repository consumes but whose sources are not
part of the verified tree (the mnemonic word codec package, the Seed type,
KeyOptions, and the OpenPGP key-set builder) are modelled from the spec; each
such definition carries a doc comment starting with "Modelled from the spec".
-/

set_option maxRecDepth 20000

namespace mnemonikey

/-! ### Parameters (parameters.go) -/

/-- EpochIncrement is time.Second, i.e. 10^9 nanoseconds, as a Go Duration. -/
def EpochIncrement : Int := 1000000000

/-- EpochStart is midnight UTC on 2023-01-01, which is 1672531200 seconds
after the Unix epoch, expressed in nanoseconds. -/
def EpochStart : Int := 1672531200 * 1000000000

/-- CreationOffsetBitCount is the number of bits used to represent a key
creation offset. -/
def CreationOffsetBitCount : Nat := 30

/-- ChecksumBitCount is the number of bits in the backup payload reserved for
the checksum. -/
def ChecksumBitCount : Nat := 5

/-- EntropyBitCount is the number of bits of entropy in the seed. -/
def EntropyBitCount : Nat := 128

/-- MnemonicSize is the number of mnemonic words needed to encode both the
key creation offset and 128 bits of seed entropy. -/
def MnemonicSize : Nat := 15

/-- checksumMask is (1 << ChecksumBitCount) - 1. -/
def checksumMask : Nat := (1 <<< ChecksumBitCount) - 1

/-- MaxCreationTime is EpochStart.Add(EpochIncrement * (1<<CreationOffsetBitCount - 1)). -/
def MaxCreationTime : Int :=
  EpochStart + EpochIncrement * ((2 ^ CreationOffsetBitCount - 1 : Nat) : Int)

/-- The zero value of Go time.Time (January 1, year 1, 00:00:00 UTC), which is
62135596800 seconds before the Unix epoch, expressed in nanoseconds.  It is
the creation time a failed DecodeMnemonic leaves in its named result. -/
def goZeroTime : Int := -62135596800 * 1000000000

/-! ### Errors -/

/-- The error values surfaced by the embedded operations, one constructor per
Go error variable (ErrInvalidChecksum, ErrInvalidWordCount, ErrExpiryTooEarly,
ErrCreationTooLate, ErrCreationTooEarly) plus the word-codec failures the
spec names (UnknownWord, and an out-of-range index on the encode side). -/
inductive GoError where
  | invalidChecksum
  | invalidWordCount
  | unknownWord
  | invalidIndex
  | expiryTooEarly
  | creationTooLate
  | creationTooEarly
deriving DecidableEq

/-! ### big.Int byte serialization and CRC-32 -/

/-- Embeds (*big.Int).FillBytes(make([]byte, len)): the value as a big-endian
byte string left-zero-padded to exactly len bytes.  Go panics when the value
does not fit in len bytes; every call reachable below stays in range. -/
def fillBytes (x : Nat) (len : Nat) : List Nat :=
  (List.range len).map fun i => (x >>> (8 * (len - 1 - i))) &&& 255

/-- The reversed CRC-32/IEEE polynomial 0xEDB88320 used by hash/crc32. -/
def crc32Poly : Nat := 0xEDB88320

/-- One bit step of the reflected CRC-32 computation. -/
def crc32Step (crc : Nat) : Nat :=
  if crc &&& 1 = 1 then (crc >>> 1) ^^^ crc32Poly else crc >>> 1

/-- n bit steps of the reflected CRC-32 computation. -/
def crc32Bits : Nat → Nat → Nat
  | 0, crc => crc
  | n + 1, crc => crc32Bits n (crc32Step crc)

/-- Folds one input byte into the running CRC-32 state. -/
def crc32Byte (crc b : Nat) : Nat := crc32Bits 8 (crc ^^^ b)

/-- Embeds crc32.ChecksumIEEE from hash/crc32: reflected CRC-32 with
polynomial 0xEDB88320, initial state 0xFFFFFFFF and final complement. -/
def crc32IEEE (bytes : List Nat) : Nat :=
  (bytes.foldl crc32Byte 0xFFFFFFFF) ^^^ 0xFFFFFFFF

/-! ### The mnemonic word codec (github.com/kklash/mnemonikey/mnemonic)

The word codec package is consumed by the verified sources but is not part of
the verified tree, so it is modelled from the spec: a lossless bidirectional
mapping between a fixed wordlist of size 2^W and W-bit indices, and between
an index sequence and a bit-packed integer, most-significant word first.
Each word is represented here by its unique wordlist index;
an unknown word is any value outside [0, 2^W). -/

namespace mnemonic

/-- Modelled from the spec: the word codec's per-word bit width W.  The spec
fixes WordCount = 15 as the least N with N * W >= 163, which forces W = 11
(the wordlist has 2^11 = 2048 words). -/
def BitsPerWord : Nat := 11

/-- Modelled from the spec: the size of the fixed wordlist, 2^W. -/
def wordCapacity : Nat := 2 ^ BitsPerWord

/-- Splits the low W * n bits of a value into n indices of W bits each,
most-significant index first. -/
def splitIndices : Nat → Nat → List Nat
  | 0, _ => []
  | n + 1, v => splitIndices n (v >>> BitsPerWord) ++ [v &&& (wordCapacity - 1)]

/-- Modelled from the spec: mnemonic.EncodeToIndices value totalBits splits
the value into ceil(totalBits / W) indices of W bits each, most-significant
first, zero-padding unused high-order bits. -/
def EncodeToIndices (value : Nat) (totalBits : Nat) : List Nat :=
  splitIndices ((totalBits + BitsPerWord - 1) / BitsPerWord) value

/-- Modelled from the spec: mnemonic.EncodeToMnemonic maps indices to
wordlist words (here: their indices), failing on an out-of-range index. -/
def EncodeToMnemonic (indices : List Nat) : Except GoError (List Nat) :=
  if indices.all fun i => i < wordCapacity then .ok indices
  else .error .invalidIndex

/-- Modelled from the spec: mnemonic.DecodeMnemonic maps words to their
wordlist indices, failing when a word is absent from the wordlist. -/
def DecodeMnemonic (words : List Nat) : Except GoError (List Nat) :=
  if words.all fun i => i < wordCapacity then .ok words
  else .error .unknownWord

/-- Reassembles W-bit indices, most-significant first, into an integer. -/
def joinIndices (indices : List Nat) : Nat :=
  indices.foldl (fun acc i => (acc <<< BitsPerWord) ||| i) 0

/-- Modelled from the spec: mnemonic.DecodeIndices reassembles an index
sequence into the packed payload integer, the inverse of EncodeToIndices. -/
def DecodeIndices (indices : List Nat) : Except GoError Nat :=
  if indices.all fun i => i < wordCapacity then .ok (joinIndices indices)
  else .error .invalidIndex

end mnemonic

/-! ### Seed, KeyOptions and the external key-set builder -/

/-- Modelled from the spec: the Seed type, a 128-bit entropy value held as an
arbitrary-precision non-negative integer (the Go type wraps a big.Int in its
Value field). -/
structure Seed where
  value : Nat
deriving DecidableEq

/-- Modelled from the spec: NewSeed wraps an integer as a Seed; DecodeMnemonic
applies it to the remaining high-order payload bits. -/
def NewSeed (value : Nat) : Seed := ⟨value⟩

/-- Modelled from the spec: seed.Bytes(), the seed as 16 = EntropyBitCount/8
big-endian bytes. -/
def Seed.Bytes (s : Seed) : List Nat := fillBytes s.value (EntropyBitCount / 8)

/-- Modelled from the spec: KeyOptions.  Only the optional expiry instant is
relevant to the embedded operations; the Go field is a time.Time whose zero
value means "no expiry set", embedded as none. -/
structure KeyOptions where
  expiry : Option Int := none
deriving DecidableEq

/-- Modelled from the spec: the key set returned by the external Key-Set
Builder, which must be fully deterministic in the seed bytes and creation
time; following the spec's design note it is modelled as a mock that echoes
its inputs. -/
structure PGPKeySet where
  seedBytes : List Nat
  creation : Int
deriving DecidableEq

/-- Modelled from the spec: derivePGPKeySet, the external Key-Set Builder
boundary.  Its failure modes are opaque builder-delegated errors outside this
core, so the model never takes the error branch. -/
def derivePGPKeySet (seedBytes : List Nat) (creation : Int) (_opts : KeyOptions) :
    Except GoError PGPKeySet :=
  .ok { seedBytes := seedBytes, creation := creation }

/-! ### Mnemonikey (mnemonikey.go) -/

/-- The Mnemonikey structure: a derived PGP key set, the seed, and the
quantized key creation time. -/
structure Mnemonikey where
  pgpKeySet : PGPKeySet
  seed : Seed
  keyCreationTime : Int
deriving DecidableEq

/-- Embeds the expiry validation in New:
!opts.Expiry.IsZero() && creation.After(opts.Expiry). -/
def expiryConflict (opts : KeyOptions) (creation : Int) : Bool :=
  match opts.expiry with
  | none => false
  | some e => creation > e

/-- Embeds New: nil options are replaced by a zero-value KeyOptions, the
expiry and creation-time bounds are validated, the creation time is floored
to the previous EpochIncrement boundary, and the key set is derived.  Go's
Duration division truncates toward zero, which is Int.tdiv. -/
def New (seed : Seed) (creation : Int) (opts : Option KeyOptions) :
    Except GoError Mnemonikey :=
  let opts := opts.getD {}
  if expiryConflict opts creation then .error .expiryTooEarly
  else if creation > MaxCreationTime then .error .creationTooLate
  else if creation < EpochStart then .error .creationTooEarly
  else
    let creationOffset : Int := (creation - EpochStart).tdiv EpochIncrement
    let creation := EpochStart + EpochIncrement * creationOffset
    match derivePGPKeySet seed.Bytes creation opts with
    | .error e => .error e
    | .ok pgpKeySet =>
      .ok { pgpKeySet := pgpKeySet, seed := seed, keyCreationTime := creation }

/-- Embeds (*Mnemonikey).CreatedAt. -/
def Mnemonikey.CreatedAt (mnk : Mnemonikey) : Int := mnk.keyCreationTime

/-- The creation offset recomputed by EncodeMnemonic:
int64(mnk.keyCreationTime.Sub(EpochStart) / EpochIncrement), with Go's
truncating Duration division. -/
def encodeCreationOffset (mnk : Mnemonikey) : Int :=
  (mnk.keyCreationTime - EpochStart).tdiv EpochIncrement

/-- The unchecksummed payload built by EncodeMnemonic: a fresh copy of
seed.Value shifted left by CreationOffsetBitCount and or-ed with the offset.
For every Mnemonikey built by New the offset is non-negative, so its int64
value is its Nat value. -/
def encodeUnchecksummed (mnk : Mnemonikey) : Nat :=
  (mnk.seed.value <<< CreationOffsetBitCount) ||| (encodeCreationOffset mnk).toNat

/-- The byte serialization EncodeMnemonic feeds to the checksum:
payloadInt.FillBytes(make([]byte, (payloadBitCount+7)/8)) with
payloadBitCount = EntropyBitCount + CreationOffsetBitCount. -/
def encodePayloadBytes (mnk : Mnemonikey) : List Nat :=
  fillBytes (encodeUnchecksummed mnk) ((EntropyBitCount + CreationOffsetBitCount + 7) / 8)

/-- The checksum EncodeMnemonic appends:
checksumMask & crc32.ChecksumIEEE(payloadBytes). -/
def encodeChecksum (mnk : Mnemonikey) : Nat :=
  checksumMask &&& crc32IEEE (encodePayloadBytes mnk)

/-- The full payload integer EncodeMnemonic hands to the word codec: the
unchecksummed payload shifted left by ChecksumBitCount, or-ed with the
checksum. -/
def encodeFullPayload (mnk : Mnemonikey) : Nat :=
  (encodeUnchecksummed mnk <<< ChecksumBitCount) ||| encodeChecksum mnk

/-- The word-index sequence EncodeMnemonic emits:
mnemonic.EncodeToIndices(payloadInt, payloadBitCount + ChecksumBitCount). -/
def encodeWords (mnk : Mnemonikey) : List Nat :=
  mnemonic.EncodeToIndices (encodeFullPayload mnk)
    (EntropyBitCount + CreationOffsetBitCount + ChecksumBitCount)

/-- Embeds (*Mnemonikey).EncodeMnemonic, the composition of the steps above
followed by mnemonic.EncodeToMnemonic. -/
def Mnemonikey.EncodeMnemonic (mnk : Mnemonikey) : Except GoError (List Nat) :=
  mnemonic.EncodeToMnemonic (encodeWords mnk)

/-- State-passing embedding of EncodeMnemonic for the frame property: the Go
method starts from payloadInt := new(big.Int).Set(mnk.seed.Value), a freshly
allocated big.Int, and every subsequent mutation (Lsh, Or) names payloadInt
as its receiver, so the receiver's seed cell is only ever read.  The second
component is the value of the receiver after the call. -/
def Mnemonikey.encodeMnemonicWithState (mnk : Mnemonikey) :
    Except GoError (List Nat) × Mnemonikey :=
  let seedCell := mnk.seed.value
  let payloadInt := seedCell
  let payloadInt := payloadInt <<< CreationOffsetBitCount
  let payloadInt := payloadInt ||| (encodeCreationOffset mnk).toNat
  let payloadBytes := fillBytes payloadInt ((EntropyBitCount + CreationOffsetBitCount + 7) / 8)
  let checksum := checksumMask &&& crc32IEEE payloadBytes
  let payloadInt := payloadInt <<< ChecksumBitCount
  let payloadInt := payloadInt ||| checksum
  (mnemonic.EncodeToMnemonic
      (mnemonic.EncodeToIndices payloadInt
        (EntropyBitCount + CreationOffsetBitCount + ChecksumBitCount)),
   { mnk with seed := ⟨seedCell⟩ })

/-- Embeds DecodeMnemonic.  The Go function uses named result parameters
(seed *Seed, creation time.Time, err error); the embedding returns that
triple, with a nil seed pointer as none and the zero time.Time as
goZeroTime. -/
def DecodeMnemonic (words : List Nat) : Option Seed × Int × Option GoError :=
  if words.length ≠ MnemonicSize then (none, goZeroTime, some .invalidWordCount)
  else
    match mnemonic.DecodeMnemonic words with
    | .error e => (none, goZeroTime, some e)
    | .ok indices =>
      match mnemonic.DecodeIndices indices with
      | .error e => (none, goZeroTime, some e)
      | .ok payload =>
        let expectedChecksum := payload &&& ((1 <<< ChecksumBitCount) - 1)
        let payloadInt := payload >>> ChecksumBitCount
        let payloadBitCount := mnemonic.BitsPerWord * words.length - ChecksumBitCount
        let payloadBytes := fillBytes payloadInt ((payloadBitCount + 7) / 8)
        let checksum := checksumMask &&& crc32IEEE payloadBytes
        if checksum ≠ expectedChecksum then (none, goZeroTime, some .invalidChecksum)
        else
          let creationOffset := payloadInt &&& ((1 <<< CreationOffsetBitCount) - 1)
          let creation := EpochStart + (creationOffset : Int) * EpochIncrement
          let seedInt := payloadInt >>> CreationOffsetBitCount
          (some (NewSeed seedInt), creation, none)

end mnemonikey

namespace mnemonikey

/-! ### Helper lemmas: bit arithmetic -/

/-- Shifting left by n bits then or-ing in a value below 2^n is addition. -/
theorem shiftLeft_or_eq_add {b : Nat} (a : Nat) {n : Nat} (h : b < 2 ^ n) :
    (a <<< n) ||| b = a * 2 ^ n + b := by
  rw [Nat.shiftLeft_eq, Nat.mul_comm a (2 ^ n), Nat.mul_add_lt_is_or h a]

/-- Masking with (1 <<< n) - 1 is reduction modulo 2^n. -/
theorem and_one_shl_sub_one (x n : Nat) : x &&& ((1 <<< n) - 1) = x % 2 ^ n := by
  have h : (1 : Nat) <<< n = 2 ^ n := by rw [Nat.shiftLeft_eq, Nat.one_mul]
  rw [h, Nat.and_pow_two_sub_one_eq_mod]

/-- Masking with checksumMask keeps the low ChecksumBitCount bits. -/
theorem checksumMask_and_eq_mod (x : Nat) :
    checksumMask &&& x = x % 2 ^ ChecksumBitCount := by
  rw [Nat.and_comm]
  exact and_one_shl_sub_one x ChecksumBitCount

/-! ### Helper lemmas: the modelled word codec -/

theorem splitIndices_length (n v : Nat) : (mnemonic.splitIndices n v).length = n := by
  induction n generalizing v with
  | zero => rfl
  | succ n ih => simp [mnemonic.splitIndices, ih]

theorem splitIndices_lt (n v : Nat) :
    ∀ i ∈ mnemonic.splitIndices n v, i < mnemonic.wordCapacity := by
  induction n generalizing v with
  | zero => simp [mnemonic.splitIndices]
  | succ n ih =>
    intro i hi
    simp only [mnemonic.splitIndices, List.mem_append, List.mem_singleton] at hi
    rcases hi with hi | rfl
    · exact ih _ i hi
    · have hmask : v &&& (mnemonic.wordCapacity - 1) = v % 2 ^ mnemonic.BitsPerWord := by
        have hcap : mnemonic.wordCapacity = 2 ^ mnemonic.BitsPerWord := rfl
        rw [hcap, Nat.and_pow_two_sub_one_eq_mod]
      rw [hmask]
      exact Nat.mod_lt _ (by decide)

theorem splitIndices_all (n v : Nat) :
    (mnemonic.splitIndices n v).all (fun i => i < mnemonic.wordCapacity) = true := by
  rw [List.all_eq_true]
  intro i hi
  simpa using splitIndices_lt n v i hi

/-- Folding the shift-and-or accumulator over splitIndices recovers the low
W * n bits of the split value. -/
theorem foldl_splitIndices (n : Nat) : ∀ v a : Nat,
    (mnemonic.splitIndices n v).foldl (fun acc i => (acc <<< mnemonic.BitsPerWord) ||| i) a
      = a * 2 ^ (mnemonic.BitsPerWord * n) + v % 2 ^ (mnemonic.BitsPerWord * n) := by
  induction n with
  | zero => intro v a; simp [mnemonic.splitIndices, Nat.mod_one]
  | succ n ih =>
    intro v a
    have hmask : v &&& (mnemonic.wordCapacity - 1) = v % 2 ^ mnemonic.BitsPerWord := by
      have hcap : mnemonic.wordCapacity = 2 ^ mnemonic.BitsPerWord := rfl
      rw [hcap, Nat.and_pow_two_sub_one_eq_mod]
    have hlt : v % 2 ^ mnemonic.BitsPerWord < 2 ^ mnemonic.BitsPerWord :=
      Nat.mod_lt _ (by decide)
    rw [mnemonic.splitIndices, List.foldl_append, ih]
    simp only [List.foldl_cons, List.foldl_nil]
    rw [hmask, shiftLeft_or_eq_add _ hlt, Nat.shiftRight_eq_div_pow]
    have hpow : (2 : Nat) ^ (mnemonic.BitsPerWord * (n + 1))
        = 2 ^ mnemonic.BitsPerWord * 2 ^ (mnemonic.BitsPerWord * n) := by
      rw [Nat.mul_succ, Nat.pow_add, Nat.mul_comm]
    rw [hpow, Nat.mod_mul]
    ring

theorem joinIndices_splitIndices {n v : Nat} (h : v < 2 ^ (mnemonic.BitsPerWord * n)) :
    mnemonic.joinIndices (mnemonic.splitIndices n v) = v := by
  unfold mnemonic.joinIndices
  rw [foldl_splitIndices, Nat.zero_mul, Nat.zero_add, Nat.mod_eq_of_lt h]

end mnemonikey

namespace mnemonikey

/-! ### Helper lemmas: New and its quantization -/

/-- The quantized creation time New stores: the requested instant floored to
the previous EpochIncrement boundary at or after EpochStart. -/
def flooredTime (c : Int) : Int :=
  EpochStart + EpochIncrement * ((c - EpochStart).tdiv EpochIncrement)

/-- The Mnemonikey New returns on the validated path. -/
def newMnk (seed : Seed) (c : Int) : Mnemonikey :=
  { pgpKeySet := { seedBytes := seed.Bytes, creation := flooredTime c },
    seed := seed,
    keyCreationTime := flooredTime c }

theorem New_eq_ok (seed : Seed) (c : Int) (opts : Option KeyOptions)
    (h1 : expiryConflict (opts.getD {}) c = false)
    (h2 : ¬c > MaxCreationTime) (h3 : ¬c < EpochStart) :
    New seed c opts = .ok (newMnk seed c) := by
  simp [New, newMnk, flooredTime, derivePGPKeySet, h1, h2, h3]

theorem New_ok_inv {seed : Seed} {c : Int} {opts : Option KeyOptions} {mnk : Mnemonikey}
    (h : New seed c opts = .ok mnk) :
    expiryConflict (opts.getD {}) c = false ∧ c ≤ MaxCreationTime ∧ EpochStart ≤ c ∧
      mnk = newMnk seed c := by
  by_cases h1 : expiryConflict (opts.getD {}) c
  · simp [New, h1] at h
  · by_cases h2 : c > MaxCreationTime
    · simp [New, h1, h2] at h
    · by_cases h3 : c < EpochStart
      · simp [New, h1, h2, h3] at h
      · rw [New_eq_ok seed c opts (by simpa using h1) h2 h3] at h
        refine ⟨by simpa using h1, by omega, by omega, ?_⟩
        exact (Except.ok.injEq _ _ ▸ h).symm

theorem two_pow_creationOffsetBitCount :
    (2 : Nat) ^ CreationOffsetBitCount = 1073741824 := by
  norm_num [CreationOffsetBitCount]

theorem maxCreationTime_eq :
    MaxCreationTime = EpochStart + 1000000000 * 1073741823 := by
  norm_num [MaxCreationTime, EpochIncrement, CreationOffsetBitCount]

/-- For every creation time New accepts, the stored creation offset is a
natural number below 2^CreationOffsetBitCount and the stored creation time is
exactly EpochStart plus that many EpochIncrements. -/
theorem flooredTime_spec {c : Int} (h3 : EpochStart ≤ c) (h2 : c ≤ MaxCreationTime) :
    ∃ o : Nat, o < 2 ^ CreationOffsetBitCount ∧
      (c - EpochStart).tdiv EpochIncrement = (o : Int) ∧
      flooredTime c = EpochStart + EpochIncrement * (o : Int) := by
  have hmax := maxCreationTime_eq
  have hd0 : 0 ≤ c - EpochStart := by omega
  have htd : (c - EpochStart).tdiv EpochIncrement = (c - EpochStart) / EpochIncrement :=
    Int.tdiv_eq_ediv hd0 (by decide)
  have hEI : EpochIncrement = 1000000000 := rfl
  refine ⟨((c - EpochStart) / EpochIncrement).toNat, ?_, ?_, ?_⟩
  · rw [two_pow_creationOffsetBitCount, hEI]
    omega
  · rw [htd, hEI]
    omega
  · unfold flooredTime
    rw [htd, hEI]
    omega

end mnemonikey

namespace mnemonikey

/-! ### The encode / decode round trip -/

theorem encodeCreationOffset_eq {mnk : Mnemonikey} {o : Nat}
    (ht : mnk.keyCreationTime = EpochStart + EpochIncrement * (o : Int)) :
    encodeCreationOffset mnk = (o : Int) := by
  unfold encodeCreationOffset
  rw [ht]
  have h1 : EpochStart + EpochIncrement * (o : Int) - EpochStart
      = EpochIncrement * (o : Int) := by ring
  have h2 : (0 : Int) ≤ EpochIncrement * (o : Int) :=
    mul_nonneg (by decide) (Int.natCast_nonneg o)
  rw [h1, Int.tdiv_eq_ediv h2 (by decide), Int.mul_ediv_cancel_left _ (by decide)]

theorem encodeUnchecksummed_eq {mnk : Mnemonikey} {o : Nat}
    (ho : o < 2 ^ CreationOffsetBitCount)
    (ht : mnk.keyCreationTime = EpochStart + EpochIncrement * (o : Int)) :
    encodeUnchecksummed mnk = mnk.seed.value * 2 ^ CreationOffsetBitCount + o := by
  unfold encodeUnchecksummed
  rw [encodeCreationOffset_eq ht]
  rw [Int.toNat_natCast]
  exact shiftLeft_or_eq_add _ ho

theorem encodeChecksum_lt (mnk : Mnemonikey) :
    encodeChecksum mnk < 2 ^ ChecksumBitCount := by
  unfold encodeChecksum
  rw [checksumMask_and_eq_mod]
  exact Nat.mod_lt _ (by decide)

theorem encodeFullPayload_eq (mnk : Mnemonikey) :
    encodeFullPayload mnk
      = encodeUnchecksummed mnk * 2 ^ ChecksumBitCount + encodeChecksum mnk := by
  unfold encodeFullPayload
  exact shiftLeft_or_eq_add _ (encodeChecksum_lt mnk)

theorem encodeUnchecksummed_lt {mnk : Mnemonikey} {o : Nat}
    (hs : mnk.seed.value < 2 ^ EntropyBitCount)
    (ho : o < 2 ^ CreationOffsetBitCount)
    (ht : mnk.keyCreationTime = EpochStart + EpochIncrement * (o : Int)) :
    encodeUnchecksummed mnk < 2 ^ 158 := by
  have hs2 := hs
  have ho2 := ho
  rw [show (2 : Nat) ^ EntropyBitCount = 340282366920938463463374607431768211456 from by
    norm_num [EntropyBitCount]] at hs2
  rw [two_pow_creationOffsetBitCount] at ho2
  rw [encodeUnchecksummed_eq ho ht, two_pow_creationOffsetBitCount,
    show (2 : Nat) ^ 158 = 365375409332725729550921208179070754913983135744 from by norm_num]
  omega

theorem encodeFullPayload_lt {mnk : Mnemonikey} {o : Nat}
    (hs : mnk.seed.value < 2 ^ EntropyBitCount)
    (ho : o < 2 ^ CreationOffsetBitCount)
    (ht : mnk.keyCreationTime = EpochStart + EpochIncrement * (o : Int)) :
    encodeFullPayload mnk < 2 ^ 163 := by
  have hult := encodeUnchecksummed_lt hs ho ht
  have hcs := encodeChecksum_lt mnk
  rw [show (2 : Nat) ^ ChecksumBitCount = 32 from by norm_num [ChecksumBitCount]] at hcs
  rw [show (2 : Nat) ^ 158 = 365375409332725729550921208179070754913983135744 from by
    norm_num] at hult
  rw [encodeFullPayload_eq,
    show (2 : Nat) ^ ChecksumBitCount = 32 from by norm_num [ChecksumBitCount],
    show (2 : Nat) ^ 163 = 11692013098647223345629478661730264157247460343808 from by norm_num]
  omega

/-- The central round trip: for every Mnemonikey whose seed is in range and
whose stored creation time sits on an EpochIncrement boundary at an offset
below 2^CreationOffsetBitCount (as New guarantees), encoding succeeds and
decoding the emitted words returns exactly the stored seed and creation
time with a nil error. -/
theorem encode_decode_roundtrip {mnk : Mnemonikey} {o : Nat}
    (hs : mnk.seed.value < 2 ^ EntropyBitCount)
    (ho : o < 2 ^ CreationOffsetBitCount)
    (ht : mnk.keyCreationTime = EpochStart + EpochIncrement * (o : Int)) :
    mnk.EncodeMnemonic = .ok (encodeWords mnk) ∧
    DecodeMnemonic (encodeWords mnk) = (some mnk.seed, mnk.keyCreationTime, none) := by
  have hu := encodeUnchecksummed_eq ho ht
  have hult : encodeUnchecksummed mnk < 2 ^ 158 := encodeUnchecksummed_lt hs ho ht
  have hcs := encodeChecksum_lt mnk
  have hF := encodeFullPayload_eq mnk
  have hFlt : encodeFullPayload mnk < 2 ^ 163 := encodeFullPayload_lt hs ho ht
  have hwords : encodeWords mnk = mnemonic.splitIndices 15 (encodeFullPayload mnk) := rfl
  have hall : (encodeWords mnk).all (fun i => i < mnemonic.wordCapacity) = true := by
    rw [hwords]; exact splitIndices_all 15 _
  have hlen : (encodeWords mnk).length = 15 := by
    rw [hwords]; exact splitIndices_length 15 _
  have henc : mnk.EncodeMnemonic = .ok (encodeWords mnk) := by
    unfold Mnemonikey.EncodeMnemonic mnemonic.EncodeToMnemonic
    rw [hall]
    rfl
  refine ⟨henc, ?_⟩
  have hdw : mnemonic.DecodeMnemonic (encodeWords mnk) = .ok (encodeWords mnk) := by
    unfold mnemonic.DecodeMnemonic
    rw [hall]
    rfl
  have hjoin : mnemonic.joinIndices (encodeWords mnk) = encodeFullPayload mnk := by
    rw [hwords]
    apply joinIndices_splitIndices
    calc encodeFullPayload mnk < 2 ^ 163 := hFlt
      _ ≤ 2 ^ (mnemonic.BitsPerWord * 15) := by norm_num [mnemonic.BitsPerWord]
  have hdi : mnemonic.DecodeIndices (encodeWords mnk) = .ok (encodeFullPayload mnk) := by
    unfold mnemonic.DecodeIndices
    rw [hall, hjoin]
    rfl
  have hexp : encodeFullPayload mnk &&& ((1 <<< ChecksumBitCount) - 1)
      = encodeChecksum mnk := by
    rw [and_one_shl_sub_one, hF,
      Nat.mul_comm (encodeUnchecksummed mnk) (2 ^ ChecksumBitCount),
      Nat.mul_add_mod, Nat.mod_eq_of_lt hcs]
  have hshr : encodeFullPayload mnk >>> ChecksumBitCount = encodeUnchecksummed mnk := by
    rw [Nat.shiftRight_eq_div_pow, hF,
      Nat.mul_comm (encodeUnchecksummed mnk) (2 ^ ChecksumBitCount),
      Nat.mul_add_div (Nat.two_pow_pos _), Nat.div_eq_of_lt hcs, Nat.add_zero]
  have hoffand : encodeUnchecksummed mnk &&& ((1 <<< CreationOffsetBitCount) - 1) = o := by
    rw [and_one_shl_sub_one, hu,
      Nat.mul_comm mnk.seed.value (2 ^ CreationOffsetBitCount),
      Nat.mul_add_mod, Nat.mod_eq_of_lt ho]
  have hseedshr : encodeUnchecksummed mnk >>> CreationOffsetBitCount = mnk.seed.value := by
    rw [Nat.shiftRight_eq_div_pow, hu,
      Nat.mul_comm mnk.seed.value (2 ^ CreationOffsetBitCount),
      Nat.mul_add_div (Nat.two_pow_pos _), Nat.div_eq_of_lt ho, Nat.add_zero]
  have hcr : EpochStart + (o : Int) * EpochIncrement = mnk.keyCreationTime := by
    rw [ht]; ring
  unfold DecodeMnemonic
  rw [if_neg (by rw [hlen]; exact fun hcon => hcon rfl)]
  simp only [hdw, hdi, hlen]
  rw [hexp, hshr]
  have hbytesn : (mnemonic.BitsPerWord * 15 - ChecksumBitCount + 7) / 8
      = (EntropyBitCount + CreationOffsetBitCount + 7) / 8 := rfl
  rw [hbytesn]
  have hcond : checksumMask &&& crc32IEEE
      (fillBytes (encodeUnchecksummed mnk) ((EntropyBitCount + CreationOffsetBitCount + 7) / 8))
      = encodeChecksum mnk := rfl
  rw [hcond]
  rw [if_neg (fun hcon => hcon rfl)]
  rw [hoffand, hseedshr, hcr]
  rfl

end mnemonikey

namespace mnemonikey

/-! ### Further helper lemmas for the claims -/

theorem New_expiry_iff (seed : Seed) (creation : Int) (opts : Option KeyOptions) :
    New seed creation opts = .error .expiryTooEarly ↔
      expiryConflict (opts.getD {}) creation = true := by
  constructor
  · intro h
    by_contra hc
    have hc' : expiryConflict (opts.getD {}) creation = false := by
      cases hx : expiryConflict (opts.getD {}) creation
      · rfl
      · exact absurd hx hc
    by_cases h2 : creation > MaxCreationTime
    · simp [New, hc', h2] at h
    · by_cases h3 : creation < EpochStart
      · simp [New, hc', h2, h3] at h
      · rw [New_eq_ok seed creation opts hc' h2 h3] at h
        exact Except.noConfusion h
  · intro h
    simp [New, h]

/-- Every decode result is either a failure triple with nil seed and the zero
time, or a success triple with a nil error. -/
theorem decode_shape (words : List Nat) :
    (∃ e, DecodeMnemonic words = (none, goZeroTime, some e)) ∨
    (∃ s c, DecodeMnemonic words = (some s, c, none)) := by
  unfold DecodeMnemonic
  split
  · exact Or.inl ⟨_, rfl⟩
  · split
    · exact Or.inl ⟨_, rfl⟩
    · split
      · exact Or.inl ⟨_, rfl⟩
      · dsimp only
        split
        · exact Or.inl ⟨_, rfl⟩
        · exact Or.inr ⟨_, _, rfl⟩

/-! ### The claims -/

/-- C1: For every Mnemonikey successfully constructed by New from a seed in
[0, 2^128) and a creation time in [EpochStart, MaxCreationTime] (a range New
itself enforces), EncodeMnemonic succeeds and DecodeMnemonic of the emitted
words succeeds and returns exactly the Mnemonikey's seed and its stored
(floored) creation time, with a nil error. -/
theorem C1_roundtrip (seed : Seed) (creation : Int) (opts : Option KeyOptions)
    (mnk : Mnemonikey) (hs : seed.value < 2 ^ EntropyBitCount)
    (hok : New seed creation opts = .ok mnk) :
    mnk.EncodeMnemonic = .ok (encodeWords mnk) ∧
    DecodeMnemonic (encodeWords mnk) = (some mnk.seed, mnk.keyCreationTime, none) := by
  obtain ⟨h1, h2, h3, rfl⟩ := New_ok_inv hok
  obtain ⟨o, ho, htd, hft⟩ := flooredTime_spec h3 h2
  exact encode_decode_roundtrip (by simpa [newMnk] using hs) ho (by simpa [newMnk] using hft)

/-- C1 witness: the all-zero seed at creation time exactly EpochStart. -/
theorem C1_roundtrip_witness :
    (newMnk ⟨0⟩ EpochStart).EncodeMnemonic = .ok (encodeWords (newMnk ⟨0⟩ EpochStart)) ∧
    DecodeMnemonic (encodeWords (newMnk ⟨0⟩ EpochStart))
      = (some (newMnk ⟨0⟩ EpochStart).seed, (newMnk ⟨0⟩ EpochStart).keyCreationTime, none) :=
  C1_roundtrip ⟨0⟩ EpochStart none (newMnk ⟨0⟩ EpochStart) (by decide)
    (New_eq_ok ⟨0⟩ EpochStart none rfl (by decide) (by decide))

/-- C6: DecodeMnemonic fails with ErrInvalidWordCount on every word list
whose length differs from MnemonicSize — regardless of the list's contents,
so no word lookup or checksum computation influences the outcome — and in
particular on every list of 14 or 16 words. -/
theorem C6_wordCount (words : List Nat) :
    (words.length ≠ MnemonicSize →
      DecodeMnemonic words = (none, goZeroTime, some .invalidWordCount)) ∧
    (words.length = 14 ∨ words.length = 16 →
      DecodeMnemonic words = (none, goZeroTime, some .invalidWordCount)) := by
  have hmain : words.length ≠ MnemonicSize →
      DecodeMnemonic words = (none, goZeroTime, some .invalidWordCount) := by
    intro h
    unfold DecodeMnemonic
    rw [if_pos h]
  refine ⟨hmain, fun h => hmain ?_⟩
  rcases h with h | h <;> rw [h] <;> decide

/-- C6 witness: 14 and 16 copies of a value that is not even a valid wordlist
index still yield ErrInvalidWordCount, not an unknown-word error. -/
theorem C6_wordCount_witness :
    DecodeMnemonic (List.replicate 14 99999)
      = (none, goZeroTime, some .invalidWordCount) ∧
    DecodeMnemonic (List.replicate 16 99999)
      = (none, goZeroTime, some .invalidWordCount) :=
  ⟨(C6_wordCount (List.replicate 14 99999)).2 (Or.inl (by decide)),
   (C6_wordCount (List.replicate 16 99999)).2 (Or.inr (by decide))⟩

/-- C8: whenever DecodeMnemonic returns a non-nil error, the returned seed is
nil and the returned creation time is the Go zero time instant. -/
theorem C8_failedDecode (words : List Nat) (e : GoError)
    (h : (DecodeMnemonic words).2.2 = some e) :
    (DecodeMnemonic words).1 = none ∧ (DecodeMnemonic words).2.1 = goZeroTime := by
  rcases decode_shape words with ⟨e2, heq⟩ | ⟨s, c, heq⟩
  · rw [heq]
    exact ⟨rfl, rfl⟩
  · rw [heq] at h
    simp at h

/-- C8 witness: a 14-word list fails and returns nil seed and the zero time. -/
theorem C8_failedDecode_witness :
    (DecodeMnemonic (List.replicate 14 0)).1 = none ∧
    (DecodeMnemonic (List.replicate 14 0)).2.1 = goZeroTime :=
  C8_failedDecode (List.replicate 14 0) .invalidWordCount (by rfl)

/-- C9: EncodeMnemonic does not modify the Mnemonikey it is called on: the
payload integer is a fresh copy of the seed value, so after the call the
receiver is bit-for-bit unchanged, the produced phrase is the one
EncodeMnemonic computes, and a second call yields the same phrase. -/
theorem C9_encodeFrame (mnk : Mnemonikey) :
    mnk.encodeMnemonicWithState = (mnk.EncodeMnemonic, mnk) ∧
    (mnk.encodeMnemonicWithState.2).EncodeMnemonic = mnk.encodeMnemonicWithState.1 := by
  have h : mnk.encodeMnemonicWithState = (mnk.EncodeMnemonic, mnk) := rfl
  refine ⟨h, ?_⟩
  rw [h]

/-- C10: a nil options pointer is replaced by a zero-value KeyOptions, so New
with nil options behaves identically to New with a fresh empty KeyOptions. -/
theorem C10_nilOptions (seed : Seed) (creation : Int) :
    New seed creation none = New seed creation (some {}) := rfl

end mnemonikey

namespace mnemonikey

/-- C2 counterexample: options carrying an expiry exactly equal to the
requested creation time do NOT make New fail with ErrExpiryTooEarly, because
the code only rejects an expiry that creation is strictly after. -/
theorem C2_counterexample :
    New ⟨0⟩ EpochStart (some { expiry := some EpochStart })
      ≠ .error .expiryTooEarly := by
  intro h
  have hconf := (New_expiry_iff ⟨0⟩ EpochStart (some { expiry := some EpochStart })).mp h
  simp [expiryConflict] at hconf

/-- C2 (amended): New fails with ErrExpiryTooEarly exactly when the options
carry an expiry instant strictly before the requested creation time; when
the expiry is unset, or at or after the creation time (equality included),
New never returns ErrExpiryTooEarly. -/
theorem C2_expiryValidation (seed : Seed) (creation : Int) (e : Option Int) :
    (New seed creation (some { expiry := e }) = .error .expiryTooEarly ↔
      ∃ x, e = some x ∧ x < creation) ∧
    New seed creation none ≠ .error .expiryTooEarly := by
  constructor
  · rw [New_expiry_iff]
    cases e with
    | none => simp [expiryConflict]
    | some x => simp [expiryConflict]
  · rw [Ne, New_expiry_iff]
    simp [expiryConflict]

/-- C3: New stores the requested creation time floored to the EpochIncrement
boundary at or before it, i.e. EpochStart + ((requested - EpochStart) /
EpochIncrement) * EpochIncrement; a requested time already on a boundary is
stored unchanged; and CreatedAt returns exactly the stored value. -/
theorem C3_flooring (seed : Seed) (creation : Int) (opts : Option KeyOptions)
    (mnk : Mnemonikey) (hok : New seed creation opts = .ok mnk) :
    mnk.CreatedAt
        = EpochStart + ((creation - EpochStart) / EpochIncrement) * EpochIncrement ∧
    ((creation - EpochStart) % EpochIncrement = 0 → mnk.CreatedAt = creation) := by
  obtain ⟨h1, h2, h3, rfl⟩ := New_ok_inv hok
  have hE : EpochIncrement = 1000000000 := rfl
  have htd : (creation - EpochStart).tdiv EpochIncrement
      = (creation - EpochStart) / EpochIncrement :=
    Int.tdiv_eq_ediv (by omega) (by decide)
  constructor
  · show flooredTime creation = _
    unfold flooredTime
    rw [htd]
    ring
  · intro hmod
    show flooredTime creation = creation
    unfold flooredTime
    rw [htd, hE]
    rw [hE] at hmod
    omega

/-- C3 witness: a creation 1.5 seconds after EpochStart is floored, and one
exactly 3 seconds after EpochStart is stored unchanged. -/
theorem C3_flooring_witness :
    (newMnk ⟨5⟩ (EpochStart + 1500000000)).CreatedAt
        = EpochStart + ((EpochStart + 1500000000 - EpochStart) / EpochIncrement)
            * EpochIncrement ∧
    (newMnk ⟨5⟩ (EpochStart + 3000000000)).CreatedAt = EpochStart + 3000000000 :=
  ⟨(C3_flooring ⟨5⟩ (EpochStart + 1500000000) none (newMnk ⟨5⟩ (EpochStart + 1500000000))
      (New_eq_ok ⟨5⟩ (EpochStart + 1500000000) none rfl (by decide) (by decide))).1,
   (C3_flooring ⟨5⟩ (EpochStart + 3000000000) none (newMnk ⟨5⟩ (EpochStart + 3000000000))
      (New_eq_ok ⟨5⟩ (EpochStart + 3000000000) none rfl (by decide) (by decide))).2
      (by decide)⟩

/-- C4: for options without a conflicting expiry, New succeeds at EpochStart
with creation offset 0 (CreatedAt = EpochStart) and at MaxCreationTime; it
fails with ErrCreationTooLate strictly after MaxCreationTime and with
ErrCreationTooEarly strictly before EpochStart. -/
theorem C4_creationBounds (seed : Seed) (opts : KeyOptions) (creation : Int) :
    (expiryConflict opts EpochStart = false →
      New seed EpochStart (some opts) = .ok (newMnk seed EpochStart) ∧
      (newMnk seed EpochStart).CreatedAt = EpochStart) ∧
    (expiryConflict opts MaxCreationTime = false →
      New seed MaxCreationTime (some opts) = .ok (newMnk seed MaxCreationTime) ∧
      (newMnk seed MaxCreationTime).CreatedAt = MaxCreationTime) ∧
    (expiryConflict opts creation = false → MaxCreationTime < creation →
      New seed creation (some opts) = .error .creationTooLate) ∧
    (expiryConflict opts creation = false → creation < EpochStart →
      New seed creation (some opts) = .error .creationTooEarly) := by
  refine ⟨fun h1 => ⟨New_eq_ok seed EpochStart (some opts) h1 (by decide) (by decide),
      by show flooredTime EpochStart = EpochStart; decide⟩,
    fun h1 => ⟨New_eq_ok seed MaxCreationTime (some opts) h1 (by decide) (by decide),
      by show flooredTime MaxCreationTime = MaxCreationTime; decide⟩,
    fun h1 h2 => by simp [New, h1, h2],
    fun h1 h2 => ?_⟩
  have h3 : ¬creation > MaxCreationTime := by
    have hEM : EpochStart ≤ MaxCreationTime := by decide
    omega
  simp [New, h1, h3, h2]

/-- C4 witness: the concrete boundary inputs, including
MaxCreationTime + EpochIncrement. -/
theorem C4_creationBounds_witness :
    New ⟨0⟩ (MaxCreationTime + EpochIncrement) (some {}) = .error .creationTooLate ∧
    New ⟨0⟩ (EpochStart - 1) (some {}) = .error .creationTooEarly ∧
    New ⟨0⟩ EpochStart (some {}) = .ok (newMnk ⟨0⟩ EpochStart) ∧
    New ⟨0⟩ MaxCreationTime (some {}) = .ok (newMnk ⟨0⟩ MaxCreationTime) :=
  ⟨(C4_creationBounds ⟨0⟩ {} (MaxCreationTime + EpochIncrement)).2.2.1 rfl (by decide),
   (C4_creationBounds ⟨0⟩ {} (EpochStart - 1)).2.2.2 rfl (by decide),
   ((C4_creationBounds ⟨0⟩ {} 0).1 rfl).1,
   ((C4_creationBounds ⟨0⟩ {} 0).2.1 rfl).1⟩

end mnemonikey

namespace mnemonikey

/-- C5: encode computes its checksum as CRC32-IEEE, masked to the low
ChecksumBitCount bits, of the unchecksummed payload (seed shifted left by
CreationOffsetBitCount, or-ed with the creation offset) serialized big-endian
left-zero-padded to whole bytes; decode recomputes the checksum over the
payload after shifting off the checksum using a byte-padding rule that
produces a byte string of identical length and content for every payload
value; and decode fails with ErrInvalidChecksum exactly when the recomputed
checksum differs from the embedded one. -/
theorem C5_checksumRule :
    ((EntropyBitCount + CreationOffsetBitCount + 7) / 8
        = (mnemonic.BitsPerWord * MnemonicSize - ChecksumBitCount + 7) / 8) ∧
    (∀ p : Nat, fillBytes p ((EntropyBitCount + CreationOffsetBitCount + 7) / 8)
        = fillBytes p ((mnemonic.BitsPerWord * MnemonicSize - ChecksumBitCount + 7) / 8)) ∧
    (∀ mnk : Mnemonikey, encodeChecksum mnk
        = checksumMask &&& crc32IEEE (fillBytes
            ((mnk.seed.value <<< CreationOffsetBitCount) |||
              (encodeCreationOffset mnk).toNat)
            ((EntropyBitCount + CreationOffsetBitCount + 7) / 8))) ∧
    (∀ words full, words.length = MnemonicSize →
      mnemonic.DecodeIndices words = .ok full →
      ((DecodeMnemonic words).2.2 = some GoError.invalidChecksum ↔
        checksumMask &&& crc32IEEE (fillBytes (full >>> ChecksumBitCount)
            ((mnemonic.BitsPerWord * MnemonicSize - ChecksumBitCount + 7) / 8))
          ≠ full &&& ((1 <<< ChecksumBitCount) - 1))) := by
  refine ⟨rfl, fun p => rfl, fun mnk => rfl, ?_⟩
  intro words full hlen hdec
  have hallw : (words.all fun i => i < mnemonic.wordCapacity) = true := by
    cases hx : (words.all fun i => i < mnemonic.wordCapacity)
    · unfold mnemonic.DecodeIndices at hdec
      rw [hx] at hdec
      simp at hdec
    · rfl
  have hdw : mnemonic.DecodeMnemonic words = .ok words := by
    unfold mnemonic.DecodeMnemonic
    rw [hallw]
    rfl
  unfold DecodeMnemonic
  rw [if_neg (by rw [hlen]; exact fun hcon => hcon rfl)]
  simp only [hdw, hdec, hlen]
  split
  next h => exact iff_of_true rfl h
  next h => exact iff_of_false (by simp) h

/-- C5 witness: fifteen copies of the first wordlist word decode to payload 0,
whose recomputed checksum differs from the embedded zero checksum. -/
theorem C5_checksumRule_witness :
    (DecodeMnemonic (List.replicate 15 0)).2.2 = some GoError.invalidChecksum ↔
      checksumMask &&& crc32IEEE (fillBytes ((0 : Nat) >>> ChecksumBitCount)
          ((mnemonic.BitsPerWord * MnemonicSize - ChecksumBitCount + 7) / 8))
        ≠ (0 : Nat) &&& ((1 <<< ChecksumBitCount) - 1) :=
  C5_checksumRule.2.2.2 (List.replicate 15 0) 0 (by decide) (by rfl)

/-- C7: the full payload integer EncodeMnemonic emits is exactly
(seed << 35) | (creationOffset << 5) | checksum — checksum in the low 5 bits,
the creation offset in the next 30, the seed above them — it fits in
163 = EntropyBitCount + CreationOffsetBitCount + ChecksumBitCount bits, and
it is zero-padded into exactly MnemonicSize fixed-width word indices that
reassemble to the same payload. -/
theorem C7_payloadLayout (seed : Seed) (creation : Int) (opts : Option KeyOptions)
    (mnk : Mnemonikey) (hs : seed.value < 2 ^ EntropyBitCount)
    (hok : New seed creation opts = .ok mnk) :
    encodeFullPayload mnk
        = ((mnk.seed.value <<< (CreationOffsetBitCount + ChecksumBitCount)) |||
            ((encodeCreationOffset mnk).toNat <<< ChecksumBitCount)) |||
          encodeChecksum mnk ∧
    encodeFullPayload mnk
        < 2 ^ (EntropyBitCount + CreationOffsetBitCount + ChecksumBitCount) ∧
    encodeWords mnk = mnemonic.splitIndices MnemonicSize (encodeFullPayload mnk) ∧
    (encodeWords mnk).length = MnemonicSize ∧
    mnemonic.joinIndices (encodeWords mnk) = encodeFullPayload mnk := by
  obtain ⟨h1, h2, h3, rfl⟩ := New_ok_inv hok
  obtain ⟨o, ho, htd, hft⟩ := flooredTime_spec h3 h2
  have hs' : (newMnk seed creation).seed.value < 2 ^ EntropyBitCount := by
    simpa [newMnk] using hs
  have ht : (newMnk seed creation).keyCreationTime
      = EpochStart + EpochIncrement * (o : Int) := by
    simpa [newMnk] using hft
  have hoffN : (encodeCreationOffset (newMnk seed creation)).toNat = o := by
    rw [encodeCreationOffset_eq ht]
    exact Int.toNat_natCast o
  have hu := encodeUnchecksummed_eq ho ht
  have hFlt := encodeFullPayload_lt hs' ho ht
  have hblt : o * 2 ^ ChecksumBitCount
      < 2 ^ (CreationOffsetBitCount + ChecksumBitCount) := by
    rw [pow_add]
    exact (Nat.mul_lt_mul_right (Nat.two_pow_pos _)).mpr ho
  have hstep : encodeUnchecksummed (newMnk seed creation) * 2 ^ ChecksumBitCount
      = (newMnk seed creation).seed.value
          * 2 ^ (CreationOffsetBitCount + ChecksumBitCount)
        + o * 2 ^ ChecksumBitCount := by
    rw [hu, pow_add]
    ring
  refine ⟨?_, hFlt, rfl, splitIndices_length 15 _, ?_⟩
  · calc encodeFullPayload (newMnk seed creation)
        = (encodeUnchecksummed (newMnk seed creation) <<< ChecksumBitCount)
            ||| encodeChecksum (newMnk seed creation) := rfl
      _ = (encodeUnchecksummed (newMnk seed creation) * 2 ^ ChecksumBitCount)
            ||| encodeChecksum (newMnk seed creation) := by rw [Nat.shiftLeft_eq]
      _ = ((newMnk seed creation).seed.value
              * 2 ^ (CreationOffsetBitCount + ChecksumBitCount)
            + o * 2 ^ ChecksumBitCount)
            ||| encodeChecksum (newMnk seed creation) := by rw [hstep]
      _ = (((newMnk seed creation).seed.value
              <<< (CreationOffsetBitCount + ChecksumBitCount))
            ||| (o * 2 ^ ChecksumBitCount))
            ||| encodeChecksum (newMnk seed creation) := by
          rw [shiftLeft_or_eq_add ((newMnk seed creation).seed.value) hblt]
      _ = (((newMnk seed creation).seed.value
              <<< (CreationOffsetBitCount + ChecksumBitCount))
            ||| (o <<< ChecksumBitCount))
            ||| encodeChecksum (newMnk seed creation) := by
          rw [Nat.shiftLeft_eq o]
      _ = (((newMnk seed creation).seed.value
              <<< (CreationOffsetBitCount + ChecksumBitCount))
            ||| ((encodeCreationOffset (newMnk seed creation)).toNat
                  <<< ChecksumBitCount))
            ||| encodeChecksum (newMnk seed creation) := by rw [hoffN]
  · have hW : encodeWords (newMnk seed creation)
        = mnemonic.splitIndices 15 (encodeFullPayload (newMnk seed creation)) := rfl
    rw [hW]
    apply joinIndices_splitIndices
    calc encodeFullPayload (newMnk seed creation) < 2 ^ 163 := hFlt
      _ ≤ 2 ^ (mnemonic.BitsPerWord * 15) := by norm_num [mnemonic.BitsPerWord]

/-- C7 witness: seed 1 at one EpochIncrement after EpochStart. -/
theorem C7_payloadLayout_witness :
    encodeFullPayload (newMnk ⟨1⟩ (EpochStart + 1000000000))
        < 2 ^ (EntropyBitCount + CreationOffsetBitCount + ChecksumBitCount) ∧
    (encodeWords (newMnk ⟨1⟩ (EpochStart + 1000000000))).length = MnemonicSize ∧
    mnemonic.joinIndices (encodeWords (newMnk ⟨1⟩ (EpochStart + 1000000000)))
      = encodeFullPayload (newMnk ⟨1⟩ (EpochStart + 1000000000)) := by
  have h := C7_payloadLayout ⟨1⟩ (EpochStart + 1000000000) none
    (newMnk ⟨1⟩ (EpochStart + 1000000000)) (by decide)
    (New_eq_ok ⟨1⟩ (EpochStart + 1000000000) none rfl (by decide) (by decide))
  exact ⟨h.2.1, h.2.2.2.1, h.2.2.2.2⟩

end mnemonikey

namespace mnemonikey

/-- C2 witness: an expiry strictly before the creation time does produce
ErrExpiryTooEarly, and absent options never do. -/
theorem C2_expiryValidation_witness :
    New ⟨0⟩ EpochStart (some { expiry := some (EpochStart - 1) })
        = .error .expiryTooEarly ∧
    New ⟨0⟩ EpochStart none ≠ .error .expiryTooEarly :=
  ⟨(C2_expiryValidation ⟨0⟩ EpochStart (some (EpochStart - 1))).1.mpr
      ⟨EpochStart - 1, rfl, by decide⟩,
   (C2_expiryValidation ⟨0⟩ EpochStart (some (EpochStart - 1))).2⟩

end mnemonikey
